import Mathlib

/-!
Shallow embedding of `src/espnet_onnx/tts/model/tts_models/tacotron2.py`
(class `Tacotron2`): the autoregressive synthesis loop of `__call__`, the
state initialisation `init_state` / `zero_state` / `get_att_prev`, the
input marshalling `get_input_enc` / `_set_input_dict` / `get_input_dec`,
and the positional state split `_split`.

Numpy arrays are embedded as (nested) lists of rationals.  The external
onnxruntime sessions (encoder, predecoder, per-step decoder, postdecoder)
are opaque function parameters.  The Python `while True` loop of `__call__`
is embedded as fuel-indexed recursion: `none` means the fuel ran out before
the loop broke, `some s` means the loop exited normally with final state `s`.
Python `assert` failures are embedded as `Except.error "AssertionError"`.
-/

namespace Tacotron2Spec

/-- one-dimensional numpy array -/
abbrev Tensor := List Rat

/-- two-dimensional numpy array -/
abbrev Mat := List (List Rat)

/-- three-dimensional numpy array -/
abbrev Mat3 := List Mat

/-- hyperparameters the class reads from `self.config.decoder` (plus the
threshold used by the stopping rule). -/
structure Config where
  dlayers : Nat
  dunits : Nat
  odim : Nat
  reduction_factor : Nat
  maxlenratio : Rat
  minlenratio : Rat
  threshold : Rat
  deriving DecidableEq

/-- Modelled from the spec: `make_pad_mask`, imported from
`espnet_onnx.utils.function`, whose source file is not part of this tree.
The spec describes the mask as "a padding mask (length L, boolean, all false
when unpadded single-utterance inference)" derived from "a count-based pad
predicate": row `i` has `max lengths` entries and entry `j` is `true`
(padded) iff `j ≥ lengths[i]`. -/
def make_pad_mask (lengths : List Nat) : List (List Bool) :=
  let maxlen := lengths.foldl max 0
  lengths.map (fun l => (List.range maxlen).map (fun j => decide (l ≤ j)))

/-- `Tacotron2.zero_state`: `np.zeros((hs_pad.shape[0], self.dunits))`;
every call site passes `x[None, :]`, whose leading dimension is 1. -/
def zero_state (cfg : Config) (hs_pad : Mat3) : Mat :=
  List.replicate hs_pad.length (List.replicate cfg.dunits (0 : Rat))

/-- `Tacotron2.get_att_prev` for the default `att_type=None` (the only call
site, `init_state`, uses the default, so the `location2d` and `coverage`
reshape branches are never taken there):
`att_prev = (1.0 - make_pad_mask([x.shape[0]])) / x.shape[0]`. -/
def get_att_prev (x_len : Nat) : Mat :=
  (make_pad_mask [x_len]).map
    (fun row => row.map (fun b => ((1 : Rat) - (if b then 1 else 0)) / (x_len : Rat)))

/-- additive attention-score bias computed in `init_state`:
`np.where(make_pad_mask([x.shape[0]]) == 1, -10000.0, 0)`. -/
def pad_bias (x_len : Nat) : Mat :=
  (make_pad_mask [x_len]).map
    (fun row => row.map (fun b => if b then (-10000 : Rat) else 0))

/-- the three instance fields that `init_state` assigns on `self` for reuse
by every decode step: `self.pre_compute_enc_h`, `self.enc_h`, `self.mask`. -/
structure Cached where
  pre_compute_enc_h : Mat3
  enc_h : Mat3
  mask : Mat
  deriving DecidableEq

/-- the four values returned by `init_state` together with the cached fields
it assigns. -/
structure InitResult where
  c_list : List Mat
  z_list : List Mat
  a : Mat
  prev_out : Mat
  cached : Cached
  deriving DecidableEq

/-- `Tacotron2.init_state`: `c_list`/`z_list` start as one `zero_state` entry
and the `for _ in range(1, self.dlayers)` loop appends `dlayers - 1` more,
giving `1 + (dlayers - 1)` entries (one entry when `dlayers = 0`); the
initial attention comes from `get_att_prev`, `prev_out` is
`np.zeros((1, odim))`, and the predecoder is invoked once on `x[None, :]`. -/
def init_state (cfg : Config) (predecoder : Mat3 → Mat3) (x : Mat) : InitResult :=
  let c_list := List.replicate (1 + (cfg.dlayers - 1)) (zero_state cfg [x])
  let z_list := List.replicate (1 + (cfg.dlayers - 1)) (zero_state cfg [x])
  { c_list := c_list
    z_list := z_list
    a := get_att_prev x.length
    prev_out := [List.replicate cfg.odim (0 : Rat)]
    cached :=
      { pre_compute_enc_h := predecoder [x]
        enc_h := [x]
        mask := pad_bias x.length } }

/-- input mapping built by `get_input_dec`: the `c_prev_i` / `z_prev_i` keys
are the positions of the two lists (layer order preserved), plus `a_prev`,
`pceh`, `enc_h`, `mask` and `prev_in`. -/
structure DecInput where
  c_prev : List Mat
  z_prev : List Mat
  a_prev : Mat
  pceh : Mat3
  enc_h : Mat3
  mask : Mat
  prev_in : Mat
  deriving DecidableEq

/-- output tuple of one `decoder.run` invocation:
`out, prob, a_prev, prev_out, *cz_states`. -/
structure DecOutput where
  out : Mat3
  prob : Tensor
  a : Mat
  prev_out : Mat
  cz_states : List Mat
  deriving DecidableEq

/-- `Tacotron2._split`: positional split of the flat trailing state outputs
at `len(status_lists) // 2` (`[:k]` / `[k:]` slices); no arity or shape
check of any kind is performed. -/
def _split (status_lists : List Mat) : List Mat × List Mat :=
  (status_lists.take (status_lists.length / 2),
   status_lists.drop (status_lists.length / 2))

/-- the mutable loop variables of `__call__`: the running index, the
recurrent state threaded between iterations, and the three accumulators. -/
structure LoopState where
  idx : Nat
  c_list : List Mat
  z_list : List Mat
  a_prev : Mat
  prev_out : Mat
  outs : List Mat3
  probs : List Tensor
  att_ws : List Mat
  deriving DecidableEq

/-- `Tacotron2.get_input_dec` applied to the current loop variables and the
cached instance fields. -/
def dec_input (cached : Cached) (s : LoopState) : DecInput :=
  { c_prev := s.c_list
    z_prev := s.z_list
    a_prev := s.a_prev
    pceh := cached.pre_compute_enc_h
    enc_h := cached.enc_h
    mask := cached.mask
    prev_in := s.prev_out }

/-- one iteration body of the `while True` loop: advance `idx` by the
reduction factor, unpack the decoder outputs through `_split`, and append
to the three accumulators. -/
def apply_step (rf : Nat) (s : LoopState) (d : DecOutput) : LoopState :=
  { idx := s.idx + rf
    c_list := (_split d.cz_states).1
    z_list := (_split d.cz_states).2
    a_prev := d.a
    prev_out := d.prev_out
    outs := s.outs ++ [d.out]
    probs := s.probs ++ [d.prob]
    att_ws := s.att_ws ++ [d.a] }

/-- one iteration body including the decoder invocation itself. -/
def loop_body (decoder : DecInput → DecOutput) (cached : Cached) (rf : Nat)
    (s : LoopState) : LoopState :=
  apply_step rf s (decoder (dec_input cached s))

/-- the candidate-stop test of `__call__`:
`int(sum(prob >= threshold)) > 0 or idx >= maxlen`. -/
def stop_trigger (threshold : Rat) (prob : Tensor) (idx : Nat) (maxlen : Int) : Bool :=
  decide (0 < prob.countP (fun p => decide (threshold ≤ p))) || decide (maxlen ≤ (idx : Int))

/-- the loop breaks exactly when the candidate-stop test fires and the
`if idx < minlen: continue` guard does not suppress it. -/
def stop_decision (threshold : Rat) (prob : Tensor) (idx : Nat)
    (maxlen minlen : Int) : Bool :=
  stop_trigger threshold prob idx maxlen && decide (minlen ≤ (idx : Int))

/-- the `while True` loop of `__call__`, fuel-indexed: `none` means the fuel
ran out before the loop broke; `some s` means the loop exited with final
loop variables `s`. -/
def run_loop (decoder : DecInput → DecOutput) (cached : Cached) (threshold : Rat)
    (rf : Nat) (maxlen minlen : Int) : Nat → LoopState → Option LoopState
  | 0, _ => none
  | fuel + 1, s =>
    let d := decoder (dec_input cached s)
    let s' := apply_step rf s d
    if stop_decision threshold d.prob s'.idx maxlen minlen then some s'
    else run_loop decoder cached threshold rf maxlen minlen fuel s'

/-- the loop variables as `__call__` sets them up just before the loop:
`idx = 0`, empty accumulators, recurrent state from `init_state`. -/
def init_loop_state (r : InitResult) : LoopState :=
  { idx := 0
    c_list := r.c_list
    z_list := r.z_list
    a_prev := r.a
    prev_out := r.prev_out
    outs := []
    probs := []
    att_ws := [] }

/-- `np.concatenate([x, y], axis=2)` for equal-shaped rank-3 arrays. -/
def concat2 (x y : Mat3) : Mat3 :=
  x.zipWith (fun p q => p.zipWith (fun u v => u ++ v) q) y

/-- `np.concatenate(ms, axis=2)` folded over a nonempty list. -/
def concatAxis2 : List Mat3 → Mat3
  | [] => []
  | m :: ms => ms.foldl concat2 m

/-- `np.concatenate(xs, axis=0)` for rank-1 arrays. -/
def concatAxis0T (xs : List Tensor) : Tensor := xs.flatten

/-- `np.concatenate(xs, axis=0)` for rank-2 arrays. -/
def concatAxis0M (xs : List Mat) : Mat := xs.flatten

/-- length of the time axis (axis 2) of a rank-3 array. -/
def time_length (m : Mat3) : Nat := ((m.headD []).headD []).length

/-- a rank-2 array has `b` rows, each of length `c`. -/
def Shape2 (m : Mat) (b c : Nat) : Prop :=
  m.length = b ∧ ∀ v ∈ m, v.length = c

/-- a rank-3 array has `a` slices, each a `b × c` rank-2 array. -/
def Shape3 (m : Mat3) (a b c : Nat) : Prop :=
  m.length = a ∧ ∀ r ∈ m, Shape2 r b c

instance (m : Mat) (b c : Nat) : Decidable (Shape2 m b c) :=
  inferInstanceAs (Decidable (_ ∧ _))

instance (m : Mat3) (a b c : Nat) : Decidable (Shape3 m a b c) :=
  inferInstanceAs (Decidable (_ ∧ _))

/-- Python `int(...)` as applied to `len(text) * ratio`: truncation toward
zero. -/
def int_trunc (q : Rat) : Int := if 0 ≤ q then ⌊q⌋ else ⌈q⌉

/-- `Tacotron2._set_input_dict`: the value is added under its key only when
the key is among the encoder's declared input names, in which case
`assert value is not None` fires first; an input whose key is not declared
is dropped silently. -/
def _set_input_dict (input_names : List String) (dic : List (String × Tensor))
    (key : String) (value : Option Tensor) : Except String (List (String × Tensor)) :=
  if key ∈ input_names then
    match value with
    | none => Except.error "AssertionError"
    | some v => Except.ok (dic ++ [(key, v)])
  else Except.ok dic

/-- `Tacotron2.get_input_enc`: start from `{'text': text}` and run the four
`_set_input_dict` calls in order; a failed `assert` aborts the chain. -/
def get_input_enc (input_names : List String) (text : Tensor)
    (feats sids spembs lids : Option Tensor) : Except String (List (String × Tensor)) :=
  match _set_input_dict input_names [("text", text)] "feats" feats with
  | Except.error e => Except.error e
  | Except.ok r1 =>
    match _set_input_dict input_names r1 "sids" sids with
    | Except.error e => Except.error e
    | Except.ok r2 =>
      match _set_input_dict input_names r2 "spembs" spembs with
      | Except.error e => Except.error e
      | Except.ok r3 => _set_input_dict input_names r3 "lids" lids

/-- selects, for one of the four optional-argument names, the corresponding
argument passed to `__call__`. -/
def opt_arg (feats sids spembs lids : Option Tensor) : String → Option Tensor
  | "feats" => feats
  | "sids" => sids
  | "spembs" => spembs
  | "lids" => lids
  | _ => none

/-- the four loaded onnxruntime sessions, as opaque (hence deterministic)
functions. -/
structure ModelFuns where
  encoder : List (String × Tensor) → Mat
  predecoder : Mat3 → Mat3
  decoder : DecInput → DecOutput
  postdecoder : Option (Mat3 → Mat3)

/-- the dictionary returned by `__call__`:
`dict(feat_gen=outs, prob=probs, att_w=att_ws)`. -/
structure CallResult where
  feat_gen : Mat3
  prob : Tensor
  att_w : Mat
  deriving DecidableEq

/-- `Tacotron2.__call__`: build the encoder input mapping (asserts fire
here, before the encoder runs), invoke the encoder, compute `maxlen` /
`minlen` by integer truncation, initialise state (overwriting the cached
instance fields), run the fuel-indexed loop, then concatenate the
accumulators and apply the optional postdecoder.  The pair's second
component is the cached-field state of the instance after the call. -/
def tacotron2_call (m : ModelFuns) (cfg : Config) (input_names : List String)
    (cached0 : Option Cached) (fuel : Nat) (text : Tensor)
    (feats sids spembs lids : Option Tensor) :
    Except String (Option CallResult) × Option Cached :=
  match get_input_enc input_names text feats sids spembs lids with
  | Except.error e => (Except.error e, cached0)
  | Except.ok input_enc =>
    let h := m.encoder input_enc
    let maxlen := int_trunc ((text.length : Rat) * cfg.maxlenratio)
    let minlen := int_trunc ((text.length : Rat) * cfg.minlenratio)
    let r := init_state cfg m.predecoder h
    match run_loop m.decoder r.cached cfg.threshold cfg.reduction_factor
        maxlen minlen fuel (init_loop_state r) with
    | none => (Except.ok none, some r.cached)
    | some t =>
      let outs0 := concatAxis2 t.outs
      let outs :=
        match m.postdecoder with
        | some pd => pd outs0
        | none => outs0
      (Except.ok (some
        { feat_gen := outs
          prob := concatAxis0T t.probs
          att_w := concatAxis0M t.att_ws }), some r.cached)

/-- configuration used by the concrete witness instances. -/
def cfgW : Config :=
  { dlayers := 2
    dunits := 1
    odim := 1
    reduction_factor := 1
    maxlenratio := 10
    minlenratio := 0
    threshold := 1 }

/-- decoder stub whose stop probability is always 1 (at the threshold 1). -/
def decStop : DecInput → DecOutput := fun _ =>
  { out := [[[7]]], prob := [1], a := [[2]], prev_out := [[3]], cz_states := [[[4]], [[5]]] }

/-- decoder stub whose stop probability is always 0 (below the threshold). -/
def decGo : DecInput → DecOutput := fun _ =>
  { out := [[[7]]], prob := [0], a := [[2]], prev_out := [[3]], cz_states := [[[4]], [[5]]] }

/-- cached fields used by the concrete witness instances. -/
def cachedW : Cached :=
  { pre_compute_enc_h := [[[1]]], enc_h := [[[1]]], mask := [[0]] }

/-- loop variables used by the concrete witness instances. -/
def sW : LoopState :=
  { idx := 0
    c_list := [[[0]]]
    z_list := [[[0]]]
    a_prev := [[1]]
    prev_out := [[0]]
    outs := []
    probs := []
    att_ws := [] }

/-- model-function bundle used by the concrete witness instances. -/
def mW : ModelFuns :=
  { encoder := fun _ => [[1]]
    predecoder := fun _ => [[[1]]]
    decoder := decGo
    postdecoder := none }

/-- loop variables after one `decStop` iteration from `sW`. -/
def tW : LoopState :=
  { idx := 1
    c_list := [[[4]]]
    z_list := [[[5]]]
    a_prev := [[2]]
    prev_out := [[3]]
    outs := [[[[7]]]]
    probs := [[1]]
    att_ws := [[[2]]] }

/-! ## General lemmas about the embedded definitions -/

theorem run_loop_succ (decoder : DecInput → DecOutput) (cached : Cached) (threshold : Rat)
    (rf : Nat) (maxlen minlen : Int) (fuel : Nat) (s : LoopState) :
    run_loop decoder cached threshold rf maxlen minlen (fuel + 1) s =
      if stop_decision threshold (decoder (dec_input cached s)).prob
          (loop_body decoder cached rf s).idx maxlen minlen then
        some (loop_body decoder cached rf s)
      else run_loop decoder cached threshold rf maxlen minlen fuel
        (loop_body decoder cached rf s) := rfl

theorem loop_body_idx (decoder : DecInput → DecOutput) (cached : Cached) (rf : Nat)
    (s : LoopState) : (loop_body decoder cached rf s).idx = s.idx + rf := rfl

/-- once the loop reaches an index at or above `minlen`, with `maxlen < minlen`
the `idx >= maxlen` arm of the candidate-stop test is automatically true, so
the loop breaks; by induction, enough fuel always suffices. -/
theorem run_loop_total (decoder : DecInput → DecOutput) (cached : Cached) (threshold : Rat)
    (rf : Nat) (maxlen minlen : Int) (hml : maxlen < minlen) :
    ∀ (fuel : Nat) (s : LoopState), 1 ≤ fuel →
      minlen ≤ (s.idx : Int) + ((fuel * rf : Nat) : Int) →
      (run_loop decoder cached threshold rf maxlen minlen fuel s).isSome = true := by
  intro fuel
  induction fuel with
  | zero => intro s h1 _; omega
  | succ k ih =>
    intro s h1 h2
    rw [run_loop_succ]
    by_cases hstop : stop_decision threshold (decoder (dec_input cached s)).prob
        (loop_body decoder cached rf s).idx maxlen minlen = true
    · rw [if_pos hstop]; rfl
    · rw [if_neg hstop]
      cases k with
      | zero =>
        exfalso
        apply hstop
        rw [loop_body_idx]
        have hmin : minlen ≤ ((s.idx + rf : Nat) : Int) := by push_cast at h2 ⊢; omega
        have hmax : maxlen ≤ ((s.idx + rf : Nat) : Int) := by omega
        unfold stop_decision stop_trigger
        simp only [Bool.and_eq_true, Bool.or_eq_true, decide_eq_true_eq]
        refine ⟨Or.inr ?_, ?_⟩ <;> push_cast at hmax hmin ⊢ <;> omega
      | succ k2 =>
        apply ih
        · omega
        · rw [loop_body_idx]
          have he : ((s.idx + rf : Nat) : Int) + (((k2 + 1) * rf : Nat) : Int) =
              (s.idx : Int) + (((k2 + 1 + 1) * rf : Nat) : Int) := by push_cast; ring
          omega

/-- arithmetic: fuel `minlen.toNat + 1` satisfies the bound of
`run_loop_total` whenever `1 ≤ rf`. -/
theorem minlen_fuel_bound (minlen : Int) (rf idx : Nat) (hrf : 1 ≤ rf) :
    minlen ≤ (idx : Int) + (((minlen.toNat + 1) * rf : Nat) : Int) := by
  have h1 : (minlen.toNat + 1 : Nat) ≤ (minlen.toNat + 1) * rf :=
    Nat.le_mul_of_pos_right _ (by omega)
  set K := (minlen.toNat + 1) * rf with hK
  omega

/-! ## Claims -/

/-- Claim C3 (confirmed): at any iteration of the synthesis loop whose index
(`s.idx + reduction_factor`, i.e. iteration count × reduction factor) is
strictly below `minlen`, the break is suppressed (`stop_decision` is false)
and the loop continues to the next iteration — regardless of the stop
probabilities the decoder returns, which are universally quantified here, so
this covers the all-ones case as well. -/
theorem claim_C3 (decoder : DecInput → DecOutput) (cached : Cached) (threshold : Rat)
    (rf : Nat) (maxlen minlen : Int) (fuel : Nat) (s : LoopState)
    (h : ((s.idx + rf : Nat) : Int) < minlen) :
    stop_decision threshold (decoder (dec_input cached s)).prob (s.idx + rf)
        maxlen minlen = false ∧
    run_loop decoder cached threshold rf maxlen minlen (fuel + 1) s =
      run_loop decoder cached threshold rf maxlen minlen fuel
        (loop_body decoder cached rf s) := by
  have hb : decide (minlen ≤ ((s.idx + rf : Nat) : Int)) = false := by
    simp only [decide_eq_false_iff_not]
    omega
  have hdec : stop_decision threshold (decoder (dec_input cached s)).prob (s.idx + rf)
      maxlen minlen = false := by
    unfold stop_decision
    rw [hb, Bool.and_false]
  refine ⟨hdec, ?_⟩
  rw [run_loop_succ, loop_body_idx]
  rw [hdec]
  rfl

/-- Claim C3 witness: concrete instance with a decoder whose stop probability
is 1 (above the 1/2 threshold), minlen 5: the loop still continues. -/
theorem claim_C3_witness :
    (((sW.idx + 1 : Nat) : Int) < 5) ∧
    (stop_decision 1 (decStop (dec_input cachedW sW)).prob (sW.idx + 1) 100 5 = false ∧
     run_loop decStop cachedW 1 1 100 5 (0 + 1) sW =
       run_loop decStop cachedW 1 1 100 5 0 (loop_body decStop cachedW 1 sW)) :=
  ⟨by decide, claim_C3 decStop cachedW 1 1 100 5 0 sW (by decide)⟩

/-- Claim C4 (confirmed): at any iteration whose index `s.idx + rf` is at or
above `maxlen` and also at or above `minlen`, the loop terminates at that same
iteration (`run_loop` returns `some` of the state produced by this iteration)
— regardless of the stop probabilities the decoder returns, which are
universally quantified here, so this covers the all-zeros case as well. -/
theorem claim_C4 (decoder : DecInput → DecOutput) (cached : Cached) (threshold : Rat)
    (rf : Nat) (maxlen minlen : Int) (fuel : Nat) (s : LoopState)
    (hmax : maxlen ≤ ((s.idx + rf : Nat) : Int))
    (hmin : minlen ≤ ((s.idx + rf : Nat) : Int)) :
    run_loop decoder cached threshold rf maxlen minlen (fuel + 1) s =
      some (loop_body decoder cached rf s) := by
  rw [run_loop_succ, loop_body_idx]
  have hdec : stop_decision threshold (decoder (dec_input cached s)).prob (s.idx + rf)
      maxlen minlen = true := by
    unfold stop_decision stop_trigger
    simp only [Bool.and_eq_true, Bool.or_eq_true, decide_eq_true_eq]
    refine ⟨Or.inr ?_, ?_⟩ <;> push_cast at hmax hmin ⊢ <;> omega
  rw [hdec]
  rfl

/-- Claim C4 witness: concrete instance with a decoder whose stop probability
is 0 (below the 1/2 threshold), maxlen 1, minlen 0: the loop still stops at
index 1. -/
theorem claim_C4_witness :
    ((1 : Int) ≤ ((sW.idx + 1 : Nat) : Int) ∧ (0 : Int) ≤ ((sW.idx + 1 : Nat) : Int)) ∧
    run_loop decGo cachedW 1 1 1 0 (0 + 1) sW = some (loop_body decGo cachedW 1 sW) :=
  ⟨⟨by decide, by decide⟩, claim_C4 decGo cachedW 1 1 1 0 0 sW (by decide) (by decide)⟩

/-- Claim C5 (amended): `_split` splits the flat trailing state sequence
positionally at `len // 2`; when the sequence has length exactly
`2 × dlayers` the two halves each have length `dlayers` and recompose to the
input.  No arity check is performed and no error can be raised — `_split` is
a total function; a sequence whose length is not `2 × dlayers` is split
silently (first half of length `len // 2`, second half the rest) rather than
failing with any `ModelContractError`. -/
theorem claim_C5 (dlayers : Nat) (l : List Mat) (h : l.length = 2 * dlayers) :
    _split l = (l.take dlayers, l.drop dlayers) ∧
    (_split l).1.length = dlayers ∧ (_split l).2.length = dlayers ∧
    (_split l).1 ++ (_split l).2 = l := by
  have h2 : l.length / 2 = dlayers := by omega
  have hs : _split l = (l.take dlayers, l.drop dlayers) := by
    unfold _split; rw [h2]
  have ht : (l.take dlayers).length = dlayers := by
    rw [List.length_take]; omega
  have hd : (l.drop dlayers).length = dlayers := by
    rw [List.length_drop]; omega
  refine ⟨hs, ?_, ?_, ?_⟩
  · rw [hs]; exact ht
  · rw [hs]; exact hd
  · rw [hs]; exact List.take_append_drop _ l

/-- Claim C5 witness: a sequence of length `2 × dlayers` with `dlayers = 1`
splits into two equal halves. -/
theorem claim_C5_witness :
    ([[[(1 : Rat)]], [[2]]] : List Mat).length = 2 * 1 ∧
    _split [[[(1 : Rat)]], [[2]]] =
      (([[[(1 : Rat)]], [[2]]] : List Mat).take 1,
       ([[[(1 : Rat)]], [[2]]] : List Mat).drop 1) :=
  ⟨by decide, (claim_C5 1 [[[(1 : Rat)]], [[2]]] (by decide)).1⟩

/-- Claim C5 counterexample: on a flat state sequence of length 3 — not of
the form `2 × dlayers` for the declared `dlayers = 2` (`2 × 2 = 4 ≠ 3`) —
`_split` silently returns unequal halves of lengths 1 and 2 instead of
failing: no `ModelContractError` (or any other error path) exists in the
code, `_split` being a total function with no validation. -/
theorem claim_C5_counterexample :
    _split [[[(1 : Rat)]], [[2]], [[3]]] = ([[[(1 : Rat)]]], [[[2]], [[3]]]) ∧
    ¬ ([[[(1 : Rat)]], [[2]], [[3]]] : List Mat).length = 2 * 2 := by
  decide

/-- row content of the initial attention: a single row over `range L`. -/
theorem get_att_prev_eq (L : Nat) :
    get_att_prev L =
      [(List.range L).map (fun j => ((1 : Rat) - if L ≤ j then 1 else 0) / (L : Rat))] := by
  unfold get_att_prev make_pad_mask
  simp [List.map_map, Function.comp]

/-- Claim C2 (amended): state initialisation performs no input validation and
never fails — `init_state` is a total function; for every encoder output,
the `L = 0` case included, it succeeds and produces exactly one initial
attention row of width `L` (empty when `L = 0`). -/
theorem claim_C2 (cfg : Config) (predecoder : Mat3 → Mat3) (x : Mat) :
    ((init_state cfg predecoder x).a).map List.length = [x.length] := by
  have ha : (init_state cfg predecoder x).a = get_att_prev x.length := rfl
  rw [ha, get_att_prev_eq]
  simp

/-- Claim C2 counterexample: at `L = 0` (empty encoder output) `init_state`
does not fail with `InvalidInput` — no validation exists in the code; it
returns this concrete value, with an empty initial attention row (the
division by `L = 0` inside `get_att_prev` is applied to an empty array, so no
element is ever divided). -/
theorem claim_C2_counterexample :
    init_state cfgW (fun _ => []) [] =
      { c_list := [[[0]], [[0]]]
        z_list := [[[0]], [[0]]]
        a := [[]]
        prev_out := [[0]]
        cached := { pre_compute_enc_h := [], enc_h := [[]], mask := [[]] } } := by
  decide

/-- Claim C9 (confirmed): the result of `__call__` does not depend on the
cached-instance-field state left over from any previous call — `init_state`
overwrites `pre_compute_enc_h` / `enc_h` / `mask` from the current inputs
before the loop reads them; with the (deterministic) model functions, the
configuration and all inputs fixed, two calls starting from arbitrary,
possibly different, prior cached states return identical results
(`feat_gen`, `prob`, `att_w`). -/
theorem claim_C9 (m : ModelFuns) (cfg : Config) (input_names : List String)
    (c1 c2 : Option Cached) (fuel : Nat) (text : Tensor)
    (feats sids spembs lids : Option Tensor) :
    (tacotron2_call m cfg input_names c1 fuel text feats sids spembs lids).1 =
    (tacotron2_call m cfg input_names c2 fuel text feats sids spembs lids).1 := by
  unfold tacotron2_call
  cases hg : get_input_enc input_names text feats sids spembs lids <;> simp

theorem set_not_mem {input_names : List String} {dic : List (String × Tensor)}
    {key : String} (value : Option Tensor) (h : key ∉ input_names) :
    _set_input_dict input_names dic key value = Except.ok dic := by
  unfold _set_input_dict
  rw [if_neg h]

theorem set_ok_sub {input_names : List String} {dic d : List (String × Tensor)}
    {key : String} {value : Option Tensor}
    (h : _set_input_dict input_names dic key value = Except.ok d) :
    ∀ p ∈ dic, p ∈ d := by
  unfold _set_input_dict at h
  by_cases hk : key ∈ input_names
  · rw [if_pos hk] at h
    cases value with
    | none => cases h
    | some v =>
      simp only [Except.ok.injEq] at h
      subst h
      intro p hp
      exact List.mem_append_left _ hp
  · rw [if_neg hk] at h
    simp only [Except.ok.injEq] at h
    subst h
    intro p hp
    exact hp

theorem set_ok_none {input_names : List String} {dic d : List (String × Tensor)}
    {key : String} (hk : key ∈ input_names)
    (h : _set_input_dict input_names dic key none = Except.ok d) : False := by
  unfold _set_input_dict at h
  rw [if_pos hk] at h
  cases h

theorem set_ok_mem {input_names : List String} {dic d : List (String × Tensor)}
    {key : String} {v : Tensor} (hk : key ∈ input_names)
    (h : _set_input_dict input_names dic key (some v) = Except.ok d) :
    (key, v) ∈ d := by
  unfold _set_input_dict at h
  rw [if_pos hk] at h
  simp only [Except.ok.injEq] at h
  subst h
  exact List.mem_append_right _ (by simp)

theorem set_err_string {input_names : List String} {dic : List (String × Tensor)}
    {key : String} {value : Option Tensor} {e : String}
    (h : _set_input_dict input_names dic key value = Except.error e) :
    e = "AssertionError" := by
  unfold _set_input_dict at h
  by_cases hk : key ∈ input_names
  · rw [if_pos hk] at h
    cases value with
    | none => cases h; rfl
    | some v => cases h
  · rw [if_neg hk] at h
    cases h

/-- success of `get_input_enc` is exactly the success of the four chained
`_set_input_dict` calls. -/
theorem gie_ok_iff {input_names : List String} {text : Tensor}
    {feats sids spembs lids : Option Tensor} {d : List (String × Tensor)} :
    get_input_enc input_names text feats sids spembs lids = Except.ok d ↔
    ∃ r1 r2 r3,
      _set_input_dict input_names [("text", text)] "feats" feats = Except.ok r1 ∧
      _set_input_dict input_names r1 "sids" sids = Except.ok r2 ∧
      _set_input_dict input_names r2 "spembs" spembs = Except.ok r3 ∧
      _set_input_dict input_names r3 "lids" lids = Except.ok d := by
  unfold get_input_enc
  cases h1 : _set_input_dict input_names [("text", text)] "feats" feats with
  | error e1 => simp [h1]
  | ok r1 =>
    cases h2 : _set_input_dict input_names r1 "sids" sids with
    | error e2 => simp [h1, h2]
    | ok r2 =>
      cases h3 : _set_input_dict input_names r2 "spembs" spembs with
      | error e3 => simp [h1, h2, h3]
      | ok r3 => simp [h1, h2, h3]

/-- every error `get_input_enc` can produce is the `assert` failure. -/
theorem gie_err_string {input_names : List String} {text : Tensor}
    {feats sids spembs lids : Option Tensor} {e : String}
    (h : get_input_enc input_names text feats sids spembs lids = Except.error e) :
    e = "AssertionError" := by
  unfold get_input_enc at h
  cases h1 : _set_input_dict input_names [("text", text)] "feats" feats with
  | error e1 =>
    simp only [h1] at h
    injection h with h
    subst h
    exact set_err_string h1
  | ok r1 =>
    simp only [h1] at h
    cases h2 : _set_input_dict input_names r1 "sids" sids with
    | error e2 =>
      simp only [h2] at h
      injection h with h
      subst h
      exact set_err_string h2
    | ok r2 =>
      simp only [h2] at h
      cases h3 : _set_input_dict input_names r2 "spembs" spembs with
      | error e3 =>
        simp only [h3] at h
        injection h with h
        subst h
        exact set_err_string h3
      | ok r3 =>
        simp only [h3] at h
        exact set_err_string h

/-- if one of the four optional arguments is declared among the encoder input
names but was not supplied, `get_input_enc` cannot succeed. -/
theorem gie_ok_requires {input_names : List String} {text : Tensor}
    {feats sids spembs lids : Option Tensor} {d : List (String × Tensor)}
    {key : String} (hk4 : key ∈ ["feats", "sids", "spembs", "lids"])
    (hk : key ∈ input_names) (hnone : opt_arg feats sids spembs lids key = none)
    (h : get_input_enc input_names text feats sids spembs lids = Except.ok d) :
    False := by
  obtain ⟨r1, r2, r3, h1, h2, h3, h4⟩ := gie_ok_iff.mp h
  fin_cases hk4 <;> simp_all [opt_arg] <;> subst hnone
  · exact set_ok_none hk h1
  · exact set_ok_none hk h2
  · exact set_ok_none hk h3
  · exact set_ok_none hk h4

/-- if one of the four optional arguments is declared and supplied, the pair
ends up in the successful encoder input mapping under its declared name. -/
theorem gie_ok_mem {input_names : List String} {text : Tensor}
    {feats sids spembs lids : Option Tensor} {d : List (String × Tensor)}
    {key : String} {v : Tensor} (hk4 : key ∈ ["feats", "sids", "spembs", "lids"])
    (hk : key ∈ input_names) (hsome : opt_arg feats sids spembs lids key = some v)
    (h : get_input_enc input_names text feats sids spembs lids = Except.ok d) :
    (key, v) ∈ d := by
  obtain ⟨r1, r2, r3, h1, h2, h3, h4⟩ := gie_ok_iff.mp h
  fin_cases hk4 <;> simp_all [opt_arg] <;> subst hsome
  · exact set_ok_sub h4 _ (set_ok_sub h3 _ (set_ok_sub h2 _ (set_ok_mem hk h1)))
  · exact set_ok_sub h4 _ (set_ok_sub h3 _ (set_ok_mem hk h2))
  · exact set_ok_sub h4 _ (set_ok_mem hk h3)
  · exact set_ok_mem hk h4

/-- Claim C8 (confirmed): for each optional conditioning input (`feats`,
`sids`, `spembs`, `lids`) that the loaded encoder declares among its input
names: invoking synthesis without supplying it (value `none`) fails with the
`assert` before the encoder is invoked — the result is the assertion error
for every model-function bundle `m` whatsoever, so no model is ever run —
and, when a value is supplied and the input mapping is built, the value is
included under the declared name. -/
theorem claim_C8 (input_names : List String) (text : Tensor)
    (feats sids spembs lids : Option Tensor) (key : String)
    (hk4 : key ∈ ["feats", "sids", "spembs", "lids"]) (hk : key ∈ input_names) :
    (opt_arg feats sids spembs lids key = none →
      ∀ (m : ModelFuns) (cfg : Config) (c0 : Option Cached) (fuel : Nat),
        (tacotron2_call m cfg input_names c0 fuel text feats sids spembs lids).1 =
          Except.error "AssertionError") ∧
    (∀ (v : Tensor) (d : List (String × Tensor)),
      opt_arg feats sids spembs lids key = some v →
      get_input_enc input_names text feats sids spembs lids = Except.ok d →
      (key, v) ∈ d) := by
  constructor
  · intro hnone m cfg c0 fuel
    cases hg : get_input_enc input_names text feats sids spembs lids with
    | error e =>
      have he := gie_err_string hg
      subst he
      unfold tacotron2_call
      rw [hg]
    | ok d => exact absurd hg (fun hg => gie_ok_requires hk4 hk hnone hg)
  · intro v d hsome hok
    exact gie_ok_mem hk4 hk hsome hok

/-- Claim C8 witness: with `sids` declared by the encoder but not supplied,
the concrete call fails with the assertion error. -/
theorem claim_C8_witness :
    ("sids" ∈ ["text", "sids"]) ∧
    (tacotron2_call mW cfgW ["text", "sids"] none 5 [1] none none none none).1 =
      Except.error "AssertionError" :=
  ⟨by decide,
   (claim_C8 ["text", "sids"] [1] none none none none "sids"
     (by decide) (by decide)).1 rfl mW cfgW none 5⟩

/-- Claim C10 (confirmed): a supplied conditioning input whose name the
loaded encoder does not declare is silently dropped by `_set_input_dict` —
no error is raised and the whole synthesis call behaves exactly as if that
input had never been given (for each of the four optional slots). -/
theorem claim_C10 (m : ModelFuns) (cfg : Config) (input_names : List String)
    (c0 : Option Cached) (fuel : Nat) (text : Tensor)
    (feats sids spembs lids : Option Tensor) (v : Tensor) :
    ("feats" ∉ input_names →
      tacotron2_call m cfg input_names c0 fuel text (some v) sids spembs lids =
      tacotron2_call m cfg input_names c0 fuel text none sids spembs lids) ∧
    ("sids" ∉ input_names →
      tacotron2_call m cfg input_names c0 fuel text feats (some v) spembs lids =
      tacotron2_call m cfg input_names c0 fuel text feats none spembs lids) ∧
    ("spembs" ∉ input_names →
      tacotron2_call m cfg input_names c0 fuel text feats sids (some v) lids =
      tacotron2_call m cfg input_names c0 fuel text feats sids none lids) ∧
    ("lids" ∉ input_names →
      tacotron2_call m cfg input_names c0 fuel text feats sids spembs (some v) =
      tacotron2_call m cfg input_names c0 fuel text feats sids spembs none) := by
  have lift : ∀ {f1 s1 sp1 l1 f2 s2 sp2 l2 : Option Tensor},
      get_input_enc input_names text f1 s1 sp1 l1 =
        get_input_enc input_names text f2 s2 sp2 l2 →
      tacotron2_call m cfg input_names c0 fuel text f1 s1 sp1 l1 =
        tacotron2_call m cfg input_names c0 fuel text f2 s2 sp2 l2 := by
    intro f1 s1 sp1 l1 f2 s2 sp2 l2 h
    unfold tacotron2_call
    rw [h]
  refine ⟨fun h => lift ?_, fun h => lift ?_, fun h => lift ?_, fun h => lift ?_⟩
  · unfold get_input_enc
    rw [set_not_mem (some v) h, set_not_mem none h]
  · unfold get_input_enc
    cases _set_input_dict input_names [("text", text)] "feats" feats with
    | error e => rfl
    | ok r1 =>
      simp only []
      rw [set_not_mem (some v) h, set_not_mem none h]
  · unfold get_input_enc
    cases _set_input_dict input_names [("text", text)] "feats" feats with
    | error e => rfl
    | ok r1 =>
      simp only []
      cases _set_input_dict input_names r1 "sids" sids with
      | error e => rfl
      | ok r2 =>
        simp only []
        rw [set_not_mem (some v) h, set_not_mem none h]
  · unfold get_input_enc
    cases _set_input_dict input_names [("text", text)] "feats" feats with
    | error e => rfl
    | ok r1 =>
      simp only []
      cases _set_input_dict input_names r1 "sids" sids with
      | error e => rfl
      | ok r2 =>
        simp only []
        cases _set_input_dict input_names r2 "spembs" spembs with
        | error e => rfl
        | ok r3 =>
          simp only []
          rw [set_not_mem (some v) h, set_not_mem none h]

/-- Claim C10 witness: with only `text` declared, supplying `feats` is
indistinguishable from not supplying it. -/
theorem claim_C10_witness :
    ("feats" ∉ ["text"]) ∧
    tacotron2_call mW cfgW ["text"] none 3 [1] (some [2]) none none none =
      tacotron2_call mW cfgW ["text"] none 3 [1] none none none none :=
  ⟨by decide, (claim_C10 mW cfgW ["text"] none 3 [1] none none none none [2]).1 (by decide)⟩

/-- Claim C1 (amended): for every configuration with `maxlen < minlen` and
`reduction_factor ≥ 1`, and every decoder and start state, the synthesis
loop terminates — given enough fuel, `run_loop` breaks out.  The spec's
non-termination analysis assumed the `idx >= maxlen` trigger fires only once
and is then suppressed by the minlen guard, but the trigger is a
greater-or-equal comparison: as soon as `idx ≥ minlen > maxlen` the trigger
holds and the minlen guard no longer suppresses it, so the loop breaks. -/
theorem claim_C1 (cfg : Config) (decoder : DecInput → DecOutput) (cached : Cached)
    (maxlen minlen : Int) (s : LoopState)
    (hml : maxlen < minlen) (hrf : 1 ≤ cfg.reduction_factor) :
    ∃ fuel, (run_loop decoder cached cfg.threshold cfg.reduction_factor
      maxlen minlen fuel s).isSome = true :=
  ⟨minlen.toNat + 1,
   run_loop_total decoder cached cfg.threshold cfg.reduction_factor maxlen minlen hml
     (minlen.toNat + 1) s (by omega) (minlen_fuel_bound minlen _ s.idx hrf)⟩

/-- Claim C1 witness: concrete degenerate configuration (`maxlen = 0 <
minlen = 5`, reduction factor 1, decoder stop probabilities all below the
threshold) for which the loop nevertheless terminates. -/
theorem claim_C1_witness :
    ((0 : Int) < 5 ∧ 1 ≤ cfgW.reduction_factor) ∧
    ∃ fuel, (run_loop decGo cachedW cfgW.threshold cfgW.reduction_factor
      0 5 fuel sW).isSome = true :=
  ⟨⟨by decide, by decide⟩, claim_C1 cfgW decGo cachedW 0 5 sW (by decide) (by decide)⟩

/-- Claim C1 counterexample: the claim asserts that some configuration with
`maxlen < minlen` and `reduction_factor ≥ 1` makes the synthesis loop run
forever (no amount of fuel suffices); this is false — no such configuration,
decoder or start state exists. -/
theorem claim_C1_counterexample :
    ¬ ∃ (cfg : Config) (decoder : DecInput → DecOutput) (cached : Cached)
        (maxlen minlen : Int) (s : LoopState),
        maxlen < minlen ∧ 1 ≤ cfg.reduction_factor ∧
        ∀ fuel, run_loop decoder cached cfg.threshold cfg.reduction_factor
          maxlen minlen fuel s = none := by
  rintro ⟨cfg, decoder, cached, maxlen, minlen, s, hml, hrf, hall⟩
  have h := run_loop_total decoder cached cfg.threshold cfg.reduction_factor maxlen minlen
    hml (minlen.toNat + 1) s (by omega) (minlen_fuel_bound minlen _ s.idx hrf)
  rw [hall] at h
  simp at h

theorem exists_of_mem_zipWith {α β γ : Type} (f : α → β → γ) :
    ∀ (x : List α) (y : List β) (z : γ), z ∈ List.zipWith f x y →
      ∃ a ∈ x, ∃ b ∈ y, z = f a b := by
  intro x
  induction x with
  | nil => intro y z h; simp at h
  | cons a x ih =>
    intro y z h
    cases y with
    | nil => simp at h
    | cons b y =>
      rw [List.zipWith_cons_cons] at h
      rcases List.mem_cons.mp h with h | h
      · exact ⟨a, List.mem_cons_self a x, b, List.mem_cons_self b y, h⟩
      · obtain ⟨a2, ha, b2, hb, hz⟩ := ih y z h
        exact ⟨a2, List.mem_cons_of_mem _ ha, b2, List.mem_cons_of_mem _ hb, hz⟩

theorem shape2_zip {x y : Mat} {b c c' : Nat} (hx : Shape2 x b c) (hy : Shape2 y b c') :
    Shape2 (x.zipWith (fun u v => u ++ v) y) b (c + c') := by
  obtain ⟨hxl, hxe⟩ := hx
  obtain ⟨hyl, hye⟩ := hy
  constructor
  · rw [List.length_zipWith, hxl, hyl, Nat.min_self]
  · intro w hw
    obtain ⟨u, hu, v, hv, hw⟩ := exists_of_mem_zipWith _ x y w hw
    subst hw
    rw [List.length_append, hxe u hu, hye v hv]

theorem shape3_concat2 {x y : Mat3} {a b c c' : Nat}
    (hx : Shape3 x a b c) (hy : Shape3 y a b c') :
    Shape3 (concat2 x y) a b (c + c') := by
  obtain ⟨hxl, hxe⟩ := hx
  obtain ⟨hyl, hye⟩ := hy
  constructor
  · unfold concat2
    rw [List.length_zipWith, hxl, hyl, Nat.min_self]
  · intro r hr
    obtain ⟨p, hp, q, hq, hr⟩ := exists_of_mem_zipWith _ x y r hr
    subst hr
    exact shape2_zip (hxe p hp) (hye q hq)

theorem shape3_foldl {a b c : Nat} :
    ∀ (ms : List Mat3) (acc : Mat3) (c0 : Nat), Shape3 acc a b c0 →
      (∀ m ∈ ms, Shape3 m a b c) →
      Shape3 (ms.foldl concat2 acc) a b (c0 + ms.length * c) := by
  intro ms
  induction ms with
  | nil => intro acc c0 h _; simpa using h
  | cons m ms ih =>
    intro acc c0 hacc hall
    rw [List.foldl_cons]
    have h1 : Shape3 (concat2 acc m) a b (c0 + c) :=
      shape3_concat2 hacc (hall m (by simp))
    have h2 := ih (concat2 acc m) (c0 + c) h1 (fun m2 hm2 => hall m2 (by simp [hm2]))
    have he : c0 + c + ms.length * c = c0 + (ms.length + 1) * c := by ring
    rw [List.length_cons, ← he]
    exact h2

theorem shape3_concatAxis2 {a b c : Nat} (ms : List Mat3) (hne : ms ≠ [])
    (hall : ∀ m ∈ ms, Shape3 m a b c) :
    Shape3 (concatAxis2 ms) a b (ms.length * c) := by
  cases ms with
  | nil => exact absurd rfl hne
  | cons m ms =>
    have h := shape3_foldl ms m c (hall m (by simp)) (fun x hx => hall x (by simp [hx]))
    have he : c + ms.length * c = (ms.length + 1) * c := by ring
    rw [List.length_cons, ← he]
    exact h

theorem time_length_of_shape {m : Mat3} {b N : Nat} (hb : 1 ≤ b)
    (h : Shape3 m 1 b N) : time_length m = N := by
  obtain ⟨hl, he⟩ := h
  cases m with
  | nil => simp at hl
  | cons r ms =>
    cases ms with
    | cons r2 ms2 => simp at hl
    | nil =>
      obtain ⟨hrl, hre⟩ := he r (by simp)
      cases r with
      | nil => simp at hrl; omega
      | cons v vs =>
        unfold time_length
        simp only [List.headD_cons]
        exact hre v (by simp)

/-- each loop iteration extends the three accumulators by one entry and the
index by one reduction factor. -/
theorem run_loop_acc (decoder : DecInput → DecOutput) (cached : Cached) (threshold : Rat)
    (rf : Nat) (maxlen minlen : Int) :
    ∀ (fuel : Nat) (s t : LoopState),
      run_loop decoder cached threshold rf maxlen minlen fuel s = some t →
      ∃ k, 1 ≤ k ∧ t.probs.length = s.probs.length + k ∧
        t.att_ws.length = s.att_ws.length + k ∧
        t.outs.length = s.outs.length + k ∧
        t.idx = s.idx + k * rf := by
  intro fuel
  induction fuel with
  | zero => intro s t h; cases h
  | succ k ih =>
    intro s t h
    rw [run_loop_succ] at h
    by_cases hstop : stop_decision threshold (decoder (dec_input cached s)).prob
        (loop_body decoder cached rf s).idx maxlen minlen = true
    · rw [if_pos hstop] at h
      injection h with h
      subst h
      refine ⟨1, le_refl 1, ?_, ?_, ?_, ?_⟩ <;>
        simp [loop_body, apply_step]
    · rw [if_neg hstop] at h
      obtain ⟨k2, hk1, hp, ha, ho, hi⟩ := ih _ t h
      refine ⟨k2 + 1, by omega, ?_, ?_, ?_, ?_⟩
      · rw [hp]; simp [loop_body, apply_step]; omega
      · rw [ha]; simp [loop_body, apply_step]; omega
      · rw [ho]; simp [loop_body, apply_step]; omega
      · rw [hi, loop_body_idx]; ring

/-- every frame array accumulated by the loop has the shape the decoder
emits. -/
theorem run_loop_outs_shape (decoder : DecInput → DecOutput) (cached : Cached)
    (threshold : Rat) (rf : Nat) (maxlen minlen : Int) {b : Nat}
    (hdec : ∀ i, Shape3 (decoder i).out 1 b rf) :
    ∀ (fuel : Nat) (s t : LoopState),
      run_loop decoder cached threshold rf maxlen minlen fuel s = some t →
      (∀ o ∈ s.outs, Shape3 o 1 b rf) → ∀ o ∈ t.outs, Shape3 o 1 b rf := by
  intro fuel
  induction fuel with
  | zero => intro s t h; cases h
  | succ k ih =>
    intro s t h hs
    rw [run_loop_succ] at h
    have hlb : ∀ o ∈ (loop_body decoder cached rf s).outs, Shape3 o 1 b rf := by
      intro o ho
      rcases List.mem_append.mp ho with ho | ho
      · exact hs o ho
      · rw [List.mem_singleton.mp ho]
        exact hdec _
    by_cases hstop : stop_decision threshold (decoder (dec_input cached s)).prob
        (loop_body decoder cached rf s).idx maxlen minlen = true
    · rw [if_pos hstop] at h
      injection h with h
      subst h
      exact hlb
    · rw [if_neg hstop] at h
      exact ih _ t h hlb

/-- Claim C6 (confirmed): for every terminating run of the synthesis loop
started, as in `__call__`, with index 0 and empty accumulators, the
stop-probability and attention accumulators have exactly as many entries as
there were iterations (the final index divided by the reduction factor), and
— assuming the decoder emits frame arrays of shape `1 × odim × rf` with
`odim ≥ 1` — the time length of the concatenated frame buffer, before any
post-processing, is iteration count × reduction factor. -/
theorem claim_C6 (decoder : DecInput → DecOutput) (cached : Cached) (threshold : Rat)
    (rf : Nat) (maxlen minlen : Int) (fuel : Nat) (s t : LoopState) (odim : Nat)
    (houts : s.outs = []) (hprobs : s.probs = []) (hatts : s.att_ws = [])
    (hidx : s.idx = 0)
    (hdec : ∀ i, Shape3 (decoder i).out 1 odim rf) (hodim : 1 ≤ odim)
    (hrun : run_loop decoder cached threshold rf maxlen minlen fuel s = some t) :
    t.att_ws.length = t.probs.length ∧
    t.outs.length = t.probs.length ∧
    t.idx = t.probs.length * rf ∧
    1 ≤ t.probs.length ∧
    time_length (concatAxis2 t.outs) = t.probs.length * rf := by
  obtain ⟨k, hk, hp, ha, ho, hi⟩ :=
    run_loop_acc decoder cached threshold rf maxlen minlen fuel s t hrun
  rw [hprobs] at hp
  rw [hatts] at ha
  rw [houts] at ho
  rw [hidx] at hi
  simp only [List.length_nil, Nat.zero_add] at hp ha ho hi
  have hsh := run_loop_outs_shape decoder cached threshold rf maxlen minlen hdec
    fuel s t hrun (by rw [houts]; intro o hh; simp at hh)
  have hne : t.outs ≠ [] := by
    intro hemp
    rw [hemp] at ho
    simp at ho
    omega
  have hcs := shape3_concatAxis2 t.outs hne hsh
  have htl := time_length_of_shape hodim hcs
  refine ⟨by omega, by omega, ?_, by omega, ?_⟩
  · rw [hp, hi]
  · rw [htl, ho, hp]

/-- Claim C6 witness: a concrete single-iteration terminating run with
reduction factor 1 and a `1 × 1 × 1` frame per step: both accumulators have
one entry and the concatenated frame buffer has time length 1. -/
theorem claim_C6_witness :
    (run_loop decStop cachedW 1 1 10 0 1 sW = some tW) ∧
    (tW.att_ws.length = tW.probs.length ∧
     tW.outs.length = tW.probs.length ∧
     tW.idx = tW.probs.length * 1 ∧
     1 ≤ tW.probs.length ∧
     time_length (concatAxis2 tW.outs) = tW.probs.length * 1) :=
  ⟨by decide,
   claim_C6 decStop cachedW 1 1 10 0 1 sW tW 1 rfl rfl rfl rfl
     (fun _ => by show Shape3 [[[7]]] 1 1 1; decide) (by decide) (by decide)⟩

/-- Claim C7 (confirmed): for every encoder output of length `L ≥ 1` and
`dlayers ≥ 1`, the initial state has cell and hidden lists of exactly
`dlayers` entries, each the `1 × dunits` all-zero array, and a single initial
attention row in which every position weighs `1/L`, so the row sums to 1
(there are no padded positions in single-utterance inference). -/
theorem claim_C7 (cfg : Config) (predecoder : Mat3 → Mat3) (x : Mat)
    (hdl : 1 ≤ cfg.dlayers) (hL : 1 ≤ x.length) :
    (init_state cfg predecoder x).c_list.length = cfg.dlayers ∧
    (init_state cfg predecoder x).z_list.length = cfg.dlayers ∧
    (∀ c ∈ (init_state cfg predecoder x).c_list,
      c = [List.replicate cfg.dunits (0 : Rat)]) ∧
    (∀ z ∈ (init_state cfg predecoder x).z_list,
      z = [List.replicate cfg.dunits (0 : Rat)]) ∧
    (init_state cfg predecoder x).a =
      [List.replicate x.length (1 / (x.length : Rat))] ∧
    ((init_state cfg predecoder x).a.headD []).sum = 1 := by
  have hzs : zero_state cfg [x] = [List.replicate cfg.dunits (0 : Rat)] := rfl
  have hrow : (init_state cfg predecoder x).a =
      [List.replicate x.length (1 / (x.length : Rat))] := by
    have ha : (init_state cfg predecoder x).a = get_att_prev x.length := rfl
    rw [ha, get_att_prev_eq]
    congr 1
    rw [List.eq_replicate_iff]
    refine ⟨by simp, ?_⟩
    intro q hq
    obtain ⟨j, hj, hq⟩ := List.mem_map.mp hq
    have hjL : ¬ x.length ≤ j := by
      rw [List.mem_range] at hj
      omega
    rw [← hq, if_neg hjL]
    norm_num
  have hLne : ((x.length : Rat)) ≠ 0 := by
    rw [Nat.cast_ne_zero]
    omega
  refine ⟨?_, ?_, ?_, ?_, hrow, ?_⟩
  · show (List.replicate (1 + (cfg.dlayers - 1)) (zero_state cfg [x])).length = cfg.dlayers
    rw [List.length_replicate]
    omega
  · show (List.replicate (1 + (cfg.dlayers - 1)) (zero_state cfg [x])).length = cfg.dlayers
    rw [List.length_replicate]
    omega
  · intro c hc
    rw [← hzs]
    exact List.eq_of_mem_replicate hc
  · intro z hz
    rw [← hzs]
    exact List.eq_of_mem_replicate hz
  · rw [hrow]
    simp only [List.headD_cons, List.sum_replicate, nsmul_eq_mul]
    rw [mul_one_div, div_self hLne]

/-- Claim C7 witness: concrete instance with `dlayers = 2`, `dunits = 1`,
`L = 2`: two zero cell entries and attention row `[1/2, 1/2]` summing to 1. -/
theorem claim_C7_witness :
    (1 ≤ cfgW.dlayers ∧ 1 ≤ ([[1], [2]] : Mat).length) ∧
    ((init_state cfgW (fun _ => []) [[1], [2]]).a.headD []).sum = 1 :=
  ⟨⟨by decide, by decide⟩,
   (claim_C7 cfgW (fun _ => []) [[1], [2]] (by decide) (by decide)).2.2.2.2.2⟩

end Tacotron2Spec
